import Mathlib

/-!
Shallow embedding of the pure-bot auto-merge webhook handler
(pkg/webhook/auto_merge.go).  GitHub API calls are modelled by an oracle
structure of pure functions; each handler returns the Go function's error
result together with the ordered list of API calls it performed, so that
skip/merge behaviour is observable in the embedding.
-/

/-- Constant labeledEvent from auto_merge.go. -/
def labeledEvent : String := "labeled"

/-- Constant statusEventSuccessState from auto_merge.go. -/
def statusEventSuccessState : String := "success"

/-- Constant checkEventSuccessConclusion from auto_merge.go. -/
def checkEventSuccessConclusion : String := "success"

/-- Modelled from the spec: the constant approvedReviewState is defined in
another file of the repository (not under the verified sources); the spec
says a review event proceeds only if the review state equals "approved"
(case-insensitive), so the constant is the lowercase string "approved". -/
def approvedReviewState : String := "approved"

/-- Go errors as seen by this handler: a go-github ErrorResponse carrying an
HTTP status code, any other error, an error wrapped with a message
(github.com/pkg/errors.Wrapf), and a multierr combination. -/
inductive GhErr : Type where
  | errorResponse (statusCode : Nat)
  | other (msg : String)
  | wrapped (msg : String) (e : GhErr)
  | multi (es : List GhErr)

/-- A legacy commit status: context name and state string. -/
structure Status : Type where
  context : String
  state : String
deriving DecidableEq, Repr

/-- A check run: name and optional conclusion (nil pointer = none). -/
structure CheckRun : Type where
  name : String
  conclusion : Option String
deriving DecidableEq, Repr

/-- The fields of a github.Issue the handler reads: number, label names,
and whether PullRequestLinks is non-nil. -/
structure Issue : Type where
  number : Nat
  labels : List String
  hasPullRequestLinks : Bool
deriving DecidableEq, Repr

/-- The fields of a github.PullRequest the handler reads. -/
structure PullRequest : Type where
  number : Nat
  headSHA : String
  baseRef : String
deriving DecidableEq, Repr

/-- The fields of a github.Repository the handler reads. -/
structure Repo : Type where
  owner : String
  name : String
  fullName : String
deriving DecidableEq, Repr

/-- config.RepoConfig restricted to what the handler reads
(config.Labels.Approved). -/
structure RepoConfig : Type where
  labelsApproved : String
deriving DecidableEq, Repr

/-- github.PullRequestEvent fields read by the handler. -/
structure PullRequestEvent : Type where
  action : String
  repo : Repo
  pullRequest : PullRequest
  installationID : Int
deriving DecidableEq, Repr

/-- github.PullRequestReviewEvent fields read by the handler. -/
structure PullRequestReviewEvent : Type where
  reviewState : String
  repo : Repo
  pullRequest : PullRequest
  installationID : Int
deriving DecidableEq, Repr

/-- github.StatusEvent fields read by the handler. -/
structure StatusEvent : Type where
  state : String
  sha : String
  repo : Repo
deriving DecidableEq, Repr

/-- The dynamic eventObject received by HandleEvent: the runtime type
switch is modelled as a sum type, with a case for any other payload. -/
inductive Event : Type where
  | pullRequest (e : PullRequestEvent)
  | status (e : StatusEvent)
  | pullRequestReview (e : PullRequestReviewEvent)
  | unknown
deriving DecidableEq, Repr

/-- One GitHub API call made by the handler, recorded in order. -/
inductive Call : Type where
  | searchIssues (query : String)
  | getIssue (owner repo : String) (number : Nat)
  | getPullRequest (owner repo : String) (number : Nat)
  | getCombinedStatus (owner repo sha : String)
  | listCheckRunsForRef (owner repo sha : String)
  | listRequiredStatusChecksContexts (owner repo branch : String)
  | merge (owner repo : String) (number : Nat) (sha : String)
deriving DecidableEq, Repr

/-- Oracle for the GitHub client: each operation's response is a pure
function of its arguments.  ListRequiredStatusChecksContexts returns a
list together with an optional error, mirroring the Go call which yields
both values ([]string and error). -/
structure GhClient : Type where
  searchIssues : String → Except GhErr (List Issue)
  getIssue : String → String → Nat → Except GhErr Issue
  getPullRequest : String → String → Nat → Except GhErr PullRequest
  getCombinedStatus : String → String → String → Except GhErr (List Status)
  listCheckRunsForRef : String → String → String → Except GhErr (List CheckRun)
  listRequiredStatusChecksContexts : String → String → String → List String × Option GhErr
  merge : String → String → Nat → String → Option GhErr

/-- The Go map prStatusMap, modelled as an association list in which
insertion removes any earlier binding of the key. -/
abbrev StatusMap : Type := List (String × Bool)

/-- Go map assignment: bind the key, dropping any previous binding. -/
def mapInsert (m : StatusMap) (k : String) (v : Bool) : StatusMap :=
  (k, v) :: m.filter (fun p => p.1 != k)

/-- Go map read: the value bound to the key, if any. -/
def mapLookup : StatusMap → String → Option Bool
  | [], _ => none
  | (k, v) :: m, n => if n = k then some v else mapLookup m n

/-- Modelled from the spec: containsLabel is defined in another file of the
repository (not under the verified sources); per the spec, labels are a set
of strings and the gate is membership of the configured approved label. -/
def containsLabel (labels : List String) (label : String) : Bool :=
  labels.any (fun l => l == label)

/-- strings.ToLower: lowercase every character of the string.  Defined by
structural recursion over the character list so that it evaluates inside
the kernel. -/
def strToLower (s : String) : String :=
  ⟨s.data.map Char.toLower⟩

/-- The first aggregation loop of mergePR (auto_merge.go lines 141-145):
seed the map from combined statuses, an entry being true iff the state is
the success state. -/
def buildStatusMap (statuses : List Status) : StatusMap :=
  statuses.foldl
    (fun m status => mapInsert m status.context (status.state == statusEventSuccessState)) []

/-- The second aggregation loop of mergePR (lines 152-157): overwrite with
check runs, an entry being true iff the conclusion is non-nil and equal to
the success conclusion. -/
def addChecks (m : StatusMap) (prChecks : List CheckRun) : StatusMap :=
  prChecks.foldl
    (fun m check => mapInsert m check.name (check.conclusion == some checkEventSuccessConclusion)) m

/-- The aggregated per-context success map for a commit: legacy statuses
first, check runs overwriting. -/
def aggregatedMap (statuses : List Status) (prChecks : List CheckRun) : StatusMap :=
  addChecks (buildStatusMap statuses) prChecks

/-- The eligibility policy of mergePR (lines 166-179): with no required
contexts every entry present in the map must be successful; with required
contexts every required name must be present in the map and successful. -/
def eligible (prStatusMap : StatusMap) (requiredContexts : List String) : Bool :=
  if requiredContexts.length == 0 then
    prStatusMap.all (fun p => p.2)
  else
    requiredContexts.all (fun requiredContext =>
      match mapLookup prStatusMap requiredContext with
      | some success => success
      | none => false)

/-- The error test of lines 161-163: the required-contexts error is
swallowed exactly when it is a go-github ErrorResponse whose HTTP status
code is http.StatusNotFound (404). -/
def swallowedNotFound : GhErr → Bool
  | .errorResponse statusCode => statusCode == 404
  | _ => false

/-- The tail of mergePR (lines 166-188): evaluate eligibility and, when
eligible, call the merge API with the commit SHA, wrapping its error. -/
def decideAndMerge (issue : Issue) (owner repository : String) (gh : GhClient)
    (commitSHA : String) (prStatusMap : StatusMap) (requiredContexts : List String) :
    Option GhErr × List Call :=
  if eligible prStatusMap requiredContexts then
    match gh.merge owner repository issue.number commitSHA with
    | some e =>
        (some (.wrapped "failed to merge pull request" e),
         [Call.merge owner repository issue.number commitSHA])
    | none => (none, [Call.merge owner repository issue.number commitSHA])
  else (none, [])

/-- The three lookup calls mergePR performs once it passes the label and
SHA gates. -/
def baseCalls (owner repository : String) (pr : PullRequest) : List Call :=
  [Call.getCombinedStatus owner repository pr.headSHA,
   Call.listCheckRunsForRef owner repository pr.headSHA,
   Call.listRequiredStatusChecksContexts owner repository pr.baseRef]

/-- Embedding of mergePR (auto_merge.go lines 125-189).  Returns the Go
error result (none = nil) and the ordered list of GitHub API calls made. -/
def mergePR (issue : Issue) (pr : PullRequest) (owner repository : String)
    (gh : GhClient) (commitSHA : String) (config : RepoConfig) :
    Option GhErr × List Call :=
  if !containsLabel issue.labels config.labelsApproved then
    (none, [])
  else if commitSHA != "" && pr.headSHA != commitSHA then
    (none, [])
  else
    let commitSHA := pr.headSHA
    match gh.getCombinedStatus owner repository commitSHA with
    | .error e =>
        (some (.wrapped "failed to get statuses of pull request" e),
         [Call.getCombinedStatus owner repository commitSHA])
    | .ok statuses =>
      let prStatusMap := buildStatusMap statuses
      match gh.listCheckRunsForRef owner repository commitSHA with
      | .error e =>
          (some (.wrapped "failed to retrieve all check for pull request" e),
           [Call.getCombinedStatus owner repository commitSHA,
            Call.listCheckRunsForRef owner repository commitSHA])
      | .ok prChecks =>
        let prStatusMap := addChecks prStatusMap prChecks
        let rc := gh.listRequiredStatusChecksContexts owner repository pr.baseRef
        let requiredContexts := rc.1
        let calls := baseCalls owner repository pr
        match rc.2 with
        | some e =>
          if !swallowedNotFound e then
            (some (.wrapped "failed to get target branch protection for pull request" e), calls)
          else
            let tail := decideAndMerge issue owner repository gh commitSHA prStatusMap requiredContexts
            (tail.1, calls ++ tail.2)
        | none =>
          let tail := decideAndMerge issue owner repository gh commitSHA prStatusMap requiredContexts
          (tail.1, calls ++ tail.2)

/-- The search query of handleStatusEvent line 89. -/
def searchQuery (repo : Repo) (commitSHA : String) : String :=
  "type:pr state:open repo:" ++ repo.fullName ++ " " ++ commitSHA

/-- The body of the per-issue loop of handleStatusEvent (lines 95-111):
skip issues without pull-request links, fetch the pull request, run
mergePR, and accumulate any error with multierr. -/
def statusStep (gh : GhClient) (repo : Repo) (commitSHA : String) (config : RepoConfig)
    (acc : List GhErr × List Call) (issue : Issue) : List GhErr × List Call :=
  if !issue.hasPullRequestLinks then acc
  else
    match gh.getPullRequest repo.owner repo.name issue.number with
    | .error e =>
        (acc.1 ++ [e], acc.2 ++ [Call.getPullRequest repo.owner repo.name issue.number])
    | .ok pr =>
      let r := mergePR issue pr repo.owner repo.name gh commitSHA config
      match r.1 with
      | some e =>
          (acc.1 ++ [e], acc.2 ++ (Call.getPullRequest repo.owner repo.name issue.number :: r.2))
      | none =>
          (acc.1, acc.2 ++ (Call.getPullRequest repo.owner repo.name issue.number :: r.2))

/-- go.uber.org/multierr combination of the errors collected in the loop:
no error gives nil, one error is returned unchanged, several are combined
into one multi error. -/
def combineErrs : List GhErr → Option GhErr
  | [] => none
  | [e] => some e
  | es => some (.multi es)

/-- Embedding of handleStatusEvent (auto_merge.go lines 81-114). -/
def handleStatusEvent (event : StatusEvent) (gh : GhClient) (config : RepoConfig) :
    Option GhErr × List Call :=
  if strToLower event.state != statusEventSuccessState then (none, [])
  else
    let commitSHA := event.sha
    let query := searchQuery event.repo commitSHA
    match gh.searchIssues query with
    | .error e =>
        (some (.wrapped "failed to search for open issues" e), [Call.searchIssues query])
    | .ok issues =>
      let res := issues.foldl (statusStep gh event.repo commitSHA config)
        ([], [Call.searchIssues query])
      (combineErrs res.1, res.2)

/-- Embedding of mergePRFromPullRequestEvent (lines 116-123). -/
def mergePRFromPullRequestEvent (installationID : Int) (repo : Repo)
    (pullRequest : PullRequest) (gh : GhClient) (config : RepoConfig) :
    Option GhErr × List Call :=
  match gh.getIssue repo.owner repo.name pullRequest.number with
  | .error e =>
      (some (.wrapped "failed to get pull request" e),
       [Call.getIssue repo.owner repo.name pullRequest.number])
  | .ok issue =>
      let r := mergePR issue pullRequest repo.owner repo.name gh "" config
      (r.1, Call.getIssue repo.owner repo.name pullRequest.number :: r.2)

/-- Embedding of handlePullRequestReviewEvent (lines 62-69). -/
def handlePullRequestReviewEvent (event : PullRequestReviewEvent) (gh : GhClient)
    (config : RepoConfig) : Option GhErr × List Call :=
  if strToLower event.reviewState != approvedReviewState then (none, [])
  else mergePRFromPullRequestEvent event.installationID event.repo event.pullRequest gh config

/-- Embedding of handlePullRequestEvent (lines 71-79). -/
def handlePullRequestEvent (event : PullRequestEvent) (gh : GhClient)
    (config : RepoConfig) : Option GhErr × List Call :=
  if strToLower event.action != labeledEvent then (none, [])
  else mergePRFromPullRequestEvent event.installationID event.repo event.pullRequest gh config

/-- Embedding of HandleEvent (lines 43-60). -/
def HandleEvent (eventObject : Event) (gh : GhClient) (config : RepoConfig) :
    Option GhErr × List Call :=
  let approvedLabel := config.labelsApproved
  if approvedLabel == "" then (none, [])
  else
    match eventObject with
    | .pullRequest event => handlePullRequestEvent event gh config
    | .status event => handleStatusEvent event gh config
    | .pullRequestReview event => handlePullRequestReviewEvent event gh config
    | .unknown => (none, [])

/-- True exactly on merge API calls, with any arguments. -/
def isMergeCall : Call → Bool
  | .merge _ _ _ _ => true
  | _ => false

/-- Per-issue errors of one iteration of the handleStatusEvent loop,
independent of the accumulator: the getPullRequest error or the mergePR
error, when any. -/
def issueErrs (gh : GhClient) (repo : Repo) (commitSHA : String) (config : RepoConfig)
    (issue : Issue) : List GhErr :=
  if !issue.hasPullRequestLinks then []
  else
    match gh.getPullRequest repo.owner repo.name issue.number with
    | .error e => [e]
    | .ok pr =>
      match (mergePR issue pr repo.owner repo.name gh commitSHA config).1 with
      | some e => [e]
      | none => []

/-- Per-issue API calls of one iteration of the handleStatusEvent loop,
independent of the accumulator. -/
def issueCalls (gh : GhClient) (repo : Repo) (commitSHA : String) (config : RepoConfig)
    (issue : Issue) : List Call :=
  if !issue.hasPullRequestLinks then []
  else
    match gh.getPullRequest repo.owner repo.name issue.number with
    | .error _ => [Call.getPullRequest repo.owner repo.name issue.number]
    | .ok pr =>
        Call.getPullRequest repo.owner repo.name issue.number ::
          (mergePR issue pr repo.owner repo.name gh commitSHA config).2

/-- Concatenation of the images of a list under a list-valued function. -/
def concatMap (f : α → List β) : List α → List β
  | [] => []
  | a :: l => f a ++ concatMap f l

/-! Concrete fixtures used by the witness theorems. -/

/-- A sample repository. -/
def repoA : Repo := { owner := "octo", name := "hello", fullName := "octo/hello" }

/-- A sample issue carrying the approved label. -/
def issueA : Issue := { number := 7, labels := ["approved"], hasPullRequestLinks := true }

/-- A sample issue without the approved label. -/
def issueNoLabel : Issue := { number := 7, labels := [], hasPullRequestLinks := true }

/-- A sample pull request. -/
def prA : PullRequest := { number := 7, headSHA := "abc", baseRef := "master" }

/-- A configuration whose approved label is "approved". -/
def cfgA : RepoConfig := { labelsApproved := "approved" }

/-- A configuration whose approved label is empty. -/
def cfgEmptyLabel : RepoConfig := { labelsApproved := "" }

/-- A successful legacy status for context "ci". -/
def statusCI : Status := { context := "ci", state := "success" }

/-- A failing legacy status for context "ci". -/
def statusFailCI : Status := { context := "ci", state := "failure" }

/-- A check run named "ci" with no conclusion yet. -/
def checkNilCI : CheckRun := { name := "ci", conclusion := none }

/-- A successfully concluded check run named "ci". -/
def checkOkCI : CheckRun := { name := "ci", conclusion := some "success" }

/-- A client whose branch protection requires context "ci" and whose
combined status reports "ci" successful. -/
def ghReq : GhClient where
  searchIssues := fun _ => Except.ok [issueA]
  getIssue := fun _ _ _ => Except.ok issueA
  getPullRequest := fun _ _ _ => Except.ok prA
  getCombinedStatus := fun _ _ _ => Except.ok [statusCI]
  listCheckRunsForRef := fun _ _ _ => Except.ok []
  listRequiredStatusChecksContexts := fun _ _ _ => (["ci"], none)
  merge := fun _ _ _ _ => none

/-- Like ghReq but with no required contexts. -/
def ghNoReq : GhClient :=
  { ghReq with listRequiredStatusChecksContexts := fun _ _ _ => ([], none) }

/-- Like ghReq but the required-contexts lookup yields 404 (no branch
protection configured). -/
def gh404 : GhClient :=
  { ghReq with
    listRequiredStatusChecksContexts := fun _ _ _ => ([], some (GhErr.errorResponse 404)) }

/-- Like ghReq but the required-contexts lookup fails with a non-404
error. -/
def ghReqErr : GhClient :=
  { ghReq with
    listRequiredStatusChecksContexts := fun _ _ _ => ([], some (GhErr.other "boom")) }

/-! Helper lemmas about the status map and the aggregation loops. -/

/-- Filtering out a different key does not change a lookup. -/
theorem mapLookup_filter_ne (m : StatusMap) (k n : String) (h : n ≠ k) :
    mapLookup (m.filter (fun p => p.1 != k)) n = mapLookup m n := by
  induction m with
  | nil => rfl
  | cons p m ih =>
    obtain ⟨pk, pv⟩ := p
    by_cases hp : pk = k
    · subst hp
      simp only [List.filter, bne_self_eq_false]
      rw [ih, mapLookup, if_neg h]
    · have hb : (pk != k) = true := bne_iff_ne.mpr hp
      simp only [List.filter, hb]
      rw [mapLookup, mapLookup]
      by_cases hn : n = pk
      · simp [hn]
      · rw [if_neg hn, if_neg hn, ih]

/-- Lookup after a Go map assignment. -/
theorem mapLookup_mapInsert (m : StatusMap) (k n : String) (v : Bool) :
    mapLookup (mapInsert m k v) n = if n = k then some v else mapLookup m n := by
  unfold mapInsert
  rw [mapLookup]
  by_cases h : n = k
  · simp [h]
  · rw [if_neg h, if_neg h, mapLookup_filter_ne m k n h]

/-- Unfolding one step of the check-run aggregation loop. -/
theorem addChecks_cons (m : StatusMap) (c : CheckRun) (cs : List CheckRun) :
    addChecks m (c :: cs) =
      addChecks (mapInsert m c.name (c.conclusion == some checkEventSuccessConclusion)) cs := rfl

/-- Check runs whose names differ from a context do not affect that
context's aggregated entry. -/
theorem mapLookup_addChecks_not_named (m : StatusMap) (cs : List CheckRun) (n : String)
    (h : ∀ c ∈ cs, c.name ≠ n) :
    mapLookup (addChecks m cs) n = mapLookup m n := by
  induction cs generalizing m with
  | nil => rfl
  | cons c cs ih =>
    rw [addChecks_cons, ih _ (fun d hd => h d (List.mem_cons_of_mem _ hd)),
      mapLookup_mapInsert, if_neg]
    exact fun hn => h c (List.mem_cons_self _ _) hn.symm

/-- The aggregated entry for the name of a check run that occurs once in
the check list is that check run's success boolean, whatever the seed map
holds. -/
theorem mapLookup_addChecks_unique (m : StatusMap) (cs : List CheckRun) (c : CheckRun)
    (hc : c ∈ cs) (huniq : ∀ d ∈ cs, d.name = c.name → d = c) :
    mapLookup (addChecks m cs) c.name = some (c.conclusion == some checkEventSuccessConclusion) := by
  induction cs generalizing m with
  | nil => cases hc
  | cons d cs ih =>
    rw [addChecks_cons]
    by_cases hmem : c ∈ cs
    · exact ih _ hmem (fun e he hn => huniq e (List.mem_cons_of_mem _ he) hn)
    · have hdc : d = c := by
        rcases List.mem_cons.mp hc with h | h
        · exact h.symm
        · exact absurd h hmem
      subst hdc
      have hnone : ∀ e ∈ cs, e.name ≠ d.name := by
        intro e he hn
        exact hmem ((huniq e (List.mem_cons_of_mem _ he) hn) ▸ he)
      rw [mapLookup_addChecks_not_named _ _ _ hnone, mapLookup_mapInsert, if_pos rfl]

/-- A map with an unsuccessful entry fails the all-entries-successful
check. -/
theorem all_false_of_lookup_false (m : StatusMap) (n : String)
    (h : mapLookup m n = some false) : m.all (fun p => p.2) = false := by
  induction m with
  | nil => simp [mapLookup] at h
  | cons p m ih =>
    obtain ⟨pk, pv⟩ := p
    rw [mapLookup] at h
    by_cases hn : n = pk
    · rw [if_pos hn] at h
      have : pv = false := by injection h
      simp [this]
    · rw [if_neg hn] at h
      simp [ih h]

/-- With no required contexts, eligibility is exactly the
all-entries-successful check. -/
theorem eligible_nil (m : StatusMap) : eligible m [] = m.all (fun p => p.2) := rfl

/-- The per-required-context test of eligible succeeds exactly on contexts
present in the map with a true value. -/
theorem lookup_match_true (m : StatusMap) (c : String) :
    ((match mapLookup m c with
      | some success => success
      | none => false) = true)
      ↔ mapLookup m c = some true := by
  cases h : mapLookup m c with
  | none => simp
  | some b => simp

/-- With a non-empty required-context list, eligibility holds exactly when
every required context is present in the map and true. -/
theorem eligible_nonempty_iff (m : StatusMap) (R : List String) (hR : R ≠ []) :
    eligible m R = true ↔ ∀ c ∈ R, mapLookup m c = some true := by
  have hlen : (R.length == 0) = false := by
    cases R with
    | nil => exact absurd rfl hR
    | cons a l => rfl
  unfold eligible
  rw [hlen, if_neg Bool.false_ne_true, List.all_eq_true]
  constructor
  · intro h c hc
    exact (lookup_match_true m c).mp (h c hc)
  · intro h c hc
    exact (lookup_match_true m c).mpr (h c hc)

/-! Helper lemmas about the decision tail and mergePR. -/

/-- The decision tail performs a merge call exactly when eligible. -/
theorem decideAndMerge_any_isMergeCall (issue : Issue) (owner repository : String)
    (gh : GhClient) (commitSHA : String) (m : StatusMap) (R : List String) :
    (decideAndMerge issue owner repository gh commitSHA m R).2.any isMergeCall
      = eligible m R := by
  unfold decideAndMerge
  cases h : eligible m R with
  | false => simp [h]
  | true =>
    rw [if_pos rfl]
    cases hm : gh.merge owner repository issue.number commitSHA <;> simp [isMergeCall]

/-- When not eligible the decision tail is a silent no-op. -/
theorem decideAndMerge_not_eligible (issue : Issue) (owner repository : String)
    (gh : GhClient) (commitSHA : String) (m : StatusMap) (R : List String)
    (h : eligible m R = false) :
    decideAndMerge issue owner repository gh commitSHA m R = (none, []) := by
  unfold decideAndMerge
  rw [h]
  rfl

/-- Every merge call recorded by the decision tail uses the given commit
SHA and the issue's number. -/
theorem decideAndMerge_merge_mem (issue : Issue) (owner repository : String)
    (gh : GhClient) (commitSHA : String) (m : StatusMap) (R : List String)
    (n : Nat) (s : String)
    (h : Call.merge owner repository n s ∈
      (decideAndMerge issue owner repository gh commitSHA m R).2) :
    s = commitSHA ∧ n = issue.number := by
  unfold decideAndMerge at h
  split at h
  · cases hm : gh.merge owner repository issue.number commitSHA <;> rw [hm] at h <;>
      simp at h <;> exact ⟨h.2, h.1⟩
  · simp at h

/-- The three lookup calls contain no merge call. -/
theorem baseCalls_no_merge (owner repository : String) (pr : PullRequest) :
    (baseCalls owner repository pr).any isMergeCall = false := rfl

/-- Evaluation lemma: once the label gate passes, the commit SHA matches
the head (or is unconstrained), both status fetches succeed, and the
required-contexts lookup either succeeds or 404s, mergePR is the decision
tail on the aggregated map and the returned required contexts, after the
three lookup calls. -/
theorem mergePR_eval (issue : Issue) (pr : PullRequest) (owner repository : String)
    (gh : GhClient) (commitSHA : String) (config : RepoConfig)
    (statuses : List Status) (prChecks : List CheckRun) (R : List String)
    (rerr : Option GhErr)
    (hlabel : containsLabel issue.labels config.labelsApproved = true)
    (hsha : commitSHA = "" ∨ commitSHA = pr.headSHA)
    (hstat : gh.getCombinedStatus owner repository pr.headSHA = Except.ok statuses)
    (hchecks : gh.listCheckRunsForRef owner repository pr.headSHA = Except.ok prChecks)
    (hreq : gh.listRequiredStatusChecksContexts owner repository pr.baseRef = (R, rerr))
    (hok : rerr = none ∨ rerr = some (GhErr.errorResponse 404)) :
    mergePR issue pr owner repository gh commitSHA config =
      ((decideAndMerge issue owner repository gh pr.headSHA
          (aggregatedMap statuses prChecks) R).1,
       baseCalls owner repository pr ++
         (decideAndMerge issue owner repository gh pr.headSHA
           (aggregatedMap statuses prChecks) R).2) := by
  have hsha2 : (commitSHA != "" && pr.headSHA != commitSHA) = false := by
    rcases hsha with h | h <;> subst h <;> simp
  rcases hok with h | h <;> subst h <;>
    simp [mergePR, hlabel, hsha2, hstat, hchecks, hreq, aggregatedMap, swallowedNotFound]

/-- Under the evaluation hypotheses, a merge call happens exactly when the
aggregated map is eligible against the returned required contexts. -/
theorem mergePR_any_merge (issue : Issue) (pr : PullRequest) (owner repository : String)
    (gh : GhClient) (commitSHA : String) (config : RepoConfig)
    (statuses : List Status) (prChecks : List CheckRun) (R : List String)
    (rerr : Option GhErr)
    (hlabel : containsLabel issue.labels config.labelsApproved = true)
    (hsha : commitSHA = "" ∨ commitSHA = pr.headSHA)
    (hstat : gh.getCombinedStatus owner repository pr.headSHA = Except.ok statuses)
    (hchecks : gh.listCheckRunsForRef owner repository pr.headSHA = Except.ok prChecks)
    (hreq : gh.listRequiredStatusChecksContexts owner repository pr.baseRef = (R, rerr))
    (hok : rerr = none ∨ rerr = some (GhErr.errorResponse 404)) :
    (mergePR issue pr owner repository gh commitSHA config).2.any isMergeCall
      = eligible (aggregatedMap statuses prChecks) R := by
  rw [mergePR_eval issue pr owner repository gh commitSHA config statuses prChecks R rerr
    hlabel hsha hstat hchecks hreq hok]
  simp [List.any_append, baseCalls, isMergeCall, decideAndMerge_any_isMergeCall]

/-- Claim C1: with a non-empty required-context set returned by the
branch-protection lookup, mergePR calls the merge API exactly when every
required context is present in the aggregated map with value true; if any
required context is absent or false, mergePR returns nil after the three
lookups, with no merge call, regardless of other map entries. -/
theorem mergePR_required_nonempty_iff (issue : Issue) (pr : PullRequest)
    (owner repository : String) (gh : GhClient) (commitSHA : String) (config : RepoConfig)
    (statuses : List Status) (prChecks : List CheckRun) (R : List String)
    (hlabel : containsLabel issue.labels config.labelsApproved = true)
    (hsha : commitSHA = "" ∨ commitSHA = pr.headSHA)
    (hstat : gh.getCombinedStatus owner repository pr.headSHA = Except.ok statuses)
    (hchecks : gh.listCheckRunsForRef owner repository pr.headSHA = Except.ok prChecks)
    (hreq : gh.listRequiredStatusChecksContexts owner repository pr.baseRef = (R, none))
    (hR : R ≠ []) :
    ((mergePR issue pr owner repository gh commitSHA config).2.any isMergeCall = true
      ↔ ∀ c ∈ R, mapLookup (aggregatedMap statuses prChecks) c = some true)
    ∧ ((¬ ∀ c ∈ R, mapLookup (aggregatedMap statuses prChecks) c = some true) →
        mergePR issue pr owner repository gh commitSHA config =
          (none, baseCalls owner repository pr)) := by
  have hany := mergePR_any_merge issue pr owner repository gh commitSHA config statuses
    prChecks R none hlabel hsha hstat hchecks hreq (Or.inl rfl)
  constructor
  · rw [hany]
    exact eligible_nonempty_iff _ R hR
  · intro hnot
    have hel : eligible (aggregatedMap statuses prChecks) R = false := by
      cases he : eligible (aggregatedMap statuses prChecks) R with
      | false => rfl
      | true => exact absurd ((eligible_nonempty_iff _ R hR).mp he) hnot
    rw [mergePR_eval issue pr owner repository gh commitSHA config statuses prChecks R none
      hlabel hsha hstat hchecks hreq (Or.inl rfl),
      decideAndMerge_not_eligible issue owner repository gh pr.headSHA _ R hel]
    simp

/-- Witness for C1: required context "ci" is present and successful, so the
merge call happens. -/
theorem mergePR_required_nonempty_iff_witness :
    (mergePR issueA prA "octo" "hello" ghReq "" cfgA).2.any isMergeCall = true :=
  (mergePR_required_nonempty_iff issueA prA "octo" "hello" ghReq "" cfgA
      [statusCI] [] ["ci"] (by decide) (Or.inl rfl) rfl rfl rfl (by decide)).1.mpr
    (by decide)

/-- Claim C2: with an empty required-context set, mergePR calls the merge
API exactly when every entry of the aggregated map is true; an empty
aggregated map merges, and any false entry blocks the merge with a nil
return. -/
theorem mergePR_required_empty_iff (issue : Issue) (pr : PullRequest)
    (owner repository : String) (gh : GhClient) (commitSHA : String) (config : RepoConfig)
    (statuses : List Status) (prChecks : List CheckRun)
    (hlabel : containsLabel issue.labels config.labelsApproved = true)
    (hsha : commitSHA = "" ∨ commitSHA = pr.headSHA)
    (hstat : gh.getCombinedStatus owner repository pr.headSHA = Except.ok statuses)
    (hchecks : gh.listCheckRunsForRef owner repository pr.headSHA = Except.ok prChecks)
    (hreq : gh.listRequiredStatusChecksContexts owner repository pr.baseRef = ([], none)) :
    ((mergePR issue pr owner repository gh commitSHA config).2.any isMergeCall = true
      ↔ ∀ p ∈ aggregatedMap statuses prChecks, p.2 = true)
    ∧ (aggregatedMap statuses prChecks = [] →
        (mergePR issue pr owner repository gh commitSHA config).2.any isMergeCall = true)
    ∧ (∀ p ∈ aggregatedMap statuses prChecks, p.2 = false →
        (mergePR issue pr owner repository gh commitSHA config).2.any isMergeCall = false
        ∧ (mergePR issue pr owner repository gh commitSHA config).1 = none) := by
  have hany := mergePR_any_merge issue pr owner repository gh commitSHA config statuses
    prChecks [] none hlabel hsha hstat hchecks hreq (Or.inl rfl)
  have hiff : (mergePR issue pr owner repository gh commitSHA config).2.any isMergeCall = true
      ↔ ∀ p ∈ aggregatedMap statuses prChecks, p.2 = true := by
    rw [hany, eligible_nil, List.all_eq_true]
  refine ⟨hiff, ?_, ?_⟩
  · intro hempty
    exact hiff.mpr (by rw [hempty]; intro p hp; cases hp)
  · intro p hp hfalse
    have hall : (aggregatedMap statuses prChecks).all (fun q => q.2) = false := by
      cases hq : (aggregatedMap statuses prChecks).all (fun q => q.2) with
      | false => rfl
      | true =>
        have := List.all_eq_true.mp hq p hp
        rw [hfalse] at this
        cases this
    have hel : eligible (aggregatedMap statuses prChecks) [] = false := by
      rw [eligible_nil, hall]
    constructor
    · rw [hany, hel]
    · rw [mergePR_eval issue pr owner repository gh commitSHA config statuses prChecks []
        none hlabel hsha hstat hchecks hreq (Or.inl rfl),
        decideAndMerge_not_eligible issue owner repository gh pr.headSHA _ [] hel]

/-- Witness for C2: no required contexts and the single aggregated entry
is successful, so the merge call happens. -/
theorem mergePR_required_empty_iff_witness :
    (mergePR issueA prA "octo" "hello" ghNoReq "" cfgA).2.any isMergeCall = true :=
  (mergePR_required_empty_iff issueA prA "octo" "hello" ghNoReq "" cfgA
      [statusCI] [] (by decide) (Or.inl rfl) rfl rfl rfl).1.mpr (by decide)

/-- Claim C3: when a commit has both a legacy status and a check run with
the same context name, the aggregated entry for that name is the check
run's success boolean — the check-run value overwrites the status-derived
value. -/
theorem aggregatedMap_check_overrides_status (statuses : List Status)
    (prChecks : List CheckRun) (c : CheckRun) (s : Status)
    (hs : s ∈ statuses) (hsc : s.context = c.name)
    (hc : c ∈ prChecks) (huniq : ∀ d ∈ prChecks, d.name = c.name → d = c) :
    mapLookup (aggregatedMap statuses prChecks) c.name
      = some (c.conclusion == some checkEventSuccessConclusion) := by
  unfold aggregatedMap
  exact mapLookup_addChecks_unique _ prChecks c hc huniq

/-- Witness for C3: a failing legacy status for "ci" is overwritten by the
successful check run of the same name. -/
theorem aggregatedMap_check_overrides_status_witness :
    mapLookup (aggregatedMap [statusFailCI] [checkOkCI]) checkOkCI.name
      = some (checkOkCI.conclusion == some checkEventSuccessConclusion) :=
  aggregatedMap_check_overrides_status [statusFailCI] [checkOkCI] checkOkCI statusFailCI
    (by decide) rfl (by decide) (by decide)

/-- Claim C4: any merge call mergePR ever performs uses the pull request's
head SHA, and a supplied non-empty commit SHA that differs from the head
SHA makes mergePR return nil immediately with no API call at all. -/
theorem mergePR_head_sha_invariant (issue : Issue) (pr : PullRequest)
    (owner repository : String) (gh : GhClient) (commitSHA : String) (config : RepoConfig) :
    (∀ n s, Call.merge owner repository n s ∈
        (mergePR issue pr owner repository gh commitSHA config).2 → s = pr.headSHA)
    ∧ (commitSHA ≠ "" → pr.headSHA ≠ commitSHA →
        mergePR issue pr owner repository gh commitSHA config = (none, [])) := by
  constructor
  · intro n s hmem
    simp only [mergePR] at hmem
    split at hmem
    · simp at hmem
    · split at hmem
      · simp at hmem
      · split at hmem
        · simp at hmem
        · split at hmem
          · simp at hmem
          · split at hmem
            · split at hmem
              · simp [baseCalls] at hmem
              · rw [List.mem_append] at hmem
                rcases hmem with h | h
                · simp [baseCalls] at h
                · exact (decideAndMerge_merge_mem _ _ _ _ _ _ _ _ _ h).1
            · rw [List.mem_append] at hmem
              rcases hmem with h | h
              · simp [baseCalls] at h
              · exact (decideAndMerge_merge_mem _ _ _ _ _ _ _ _ _ h).1
  · intro h1 h2
    have hsha : (commitSHA != "" && pr.headSHA != commitSHA) = true := by
      simp [h1, h2]
    cases hl : containsLabel issue.labels config.labelsApproved with
    | false => simp [mergePR, hl]
    | true => simp [mergePR, hl, hsha]

/-- Witness for C4: a pinned SHA that differs from the head SHA yields an
immediate nil with no API call. -/
theorem mergePR_head_sha_invariant_witness :
    mergePR issueA prA "octo" "hello" ghReq "zzz" cfgA = (none, []) :=
  (mergePR_head_sha_invariant issueA prA "octo" "hello" ghReq "zzz" cfgA).2
    (by decide) (by decide)

/-- Claim C5: a 404 from the required-contexts lookup is swallowed; mergePR
proceeds to the eligibility decision with the returned (empty) context
list exactly as if the lookup had succeeded, while any non-404 lookup
failure is wrapped and returned after the three lookup calls. -/
theorem mergePR_notfound_failopen (issue : Issue) (pr : PullRequest)
    (owner repository : String) (gh : GhClient) (commitSHA : String) (config : RepoConfig)
    (statuses : List Status) (prChecks : List CheckRun)
    (hlabel : containsLabel issue.labels config.labelsApproved = true)
    (hsha : commitSHA = "" ∨ commitSHA = pr.headSHA)
    (hstat : gh.getCombinedStatus owner repository pr.headSHA = Except.ok statuses)
    (hchecks : gh.listCheckRunsForRef owner repository pr.headSHA = Except.ok prChecks) :
    (gh.listRequiredStatusChecksContexts owner repository pr.baseRef
        = ([], some (GhErr.errorResponse 404)) →
      mergePR issue pr owner repository gh commitSHA config =
        ((decideAndMerge issue owner repository gh pr.headSHA
            (aggregatedMap statuses prChecks) []).1,
         baseCalls owner repository pr ++
           (decideAndMerge issue owner repository gh pr.headSHA
             (aggregatedMap statuses prChecks) []).2))
    ∧ (∀ R e, gh.listRequiredStatusChecksContexts owner repository pr.baseRef = (R, some e) →
        swallowedNotFound e = false →
        mergePR issue pr owner repository gh commitSHA config =
          (some (GhErr.wrapped "failed to get target branch protection for pull request" e),
           baseCalls owner repository pr)) := by
  constructor
  · intro hreq
    exact mergePR_eval issue pr owner repository gh commitSHA config statuses prChecks []
      (some (GhErr.errorResponse 404)) hlabel hsha hstat hchecks hreq (Or.inr rfl)
  · intro R e hreq he
    have hsha2 : (commitSHA != "" && pr.headSHA != commitSHA) = false := by
      rcases hsha with h | h <;> subst h <;> simp
    simp [mergePR, hlabel, hsha2, hstat, hchecks, hreq, he, baseCalls]

/-- Witness for C5: the 404 client falls open into the empty-required-set
decision and the non-404 client's error is wrapped and returned. -/
theorem mergePR_notfound_failopen_witness :
    mergePR issueA prA "octo" "hello" gh404 "" cfgA =
      ((decideAndMerge issueA "octo" "hello" gh404 prA.headSHA
          (aggregatedMap [statusCI] []) []).1,
       baseCalls "octo" "hello" prA ++
         (decideAndMerge issueA "octo" "hello" gh404 prA.headSHA
           (aggregatedMap [statusCI] []) []).2)
    ∧ mergePR issueA prA "octo" "hello" ghReqErr "" cfgA =
        (some (GhErr.wrapped "failed to get target branch protection for pull request"
          (GhErr.other "boom")),
         baseCalls "octo" "hello" prA) :=
  ⟨(mergePR_notfound_failopen issueA prA "octo" "hello" gh404 "" cfgA [statusCI] []
      (by decide) (Or.inl rfl) rfl rfl).1 rfl,
   (mergePR_notfound_failopen issueA prA "octo" "hello" ghReqErr "" cfgA [statusCI] []
      (by decide) (Or.inl rfl) rfl rfl).2 [] (GhErr.other "boom") rfl rfl⟩

/-- One loop iteration of handleStatusEvent only appends to the
accumulated errors and calls; what it appends does not depend on the
accumulator. -/
theorem statusStep_append (gh : GhClient) (repo : Repo) (commitSHA : String)
    (config : RepoConfig) (acc : List GhErr × List Call) (issue : Issue) :
    statusStep gh repo commitSHA config acc issue =
      (acc.1 ++ issueErrs gh repo commitSHA config issue,
       acc.2 ++ issueCalls gh repo commitSHA config issue) := by
  unfold statusStep issueErrs issueCalls
  cases hlinks : issue.hasPullRequestLinks with
  | false => simp
  | true =>
    rcases hpr : gh.getPullRequest repo.owner repo.name issue.number with e | pr
    · simp [hpr]
    · simp only [hpr, Bool.not_true, Bool.false_eq_true, if_false]
      cases hm : (mergePR issue pr repo.owner repo.name gh commitSHA config).1 <;> simp [hm]

/-- The loop of handleStatusEvent equals per-issue concatenation: each
issue contributes its own errors and calls, independent of the others. -/
theorem foldl_statusStep (gh : GhClient) (repo : Repo) (commitSHA : String)
    (config : RepoConfig) (issues : List Issue) (acc : List GhErr × List Call) :
    issues.foldl (statusStep gh repo commitSHA config) acc =
      (acc.1 ++ concatMap (issueErrs gh repo commitSHA config) issues,
       acc.2 ++ concatMap (issueCalls gh repo commitSHA config) issues) := by
  induction issues generalizing acc with
  | nil => simp [concatMap]
  | cons i is ih =>
    rw [List.foldl_cons, statusStep_append, ih]
    simp [concatMap, List.append_assoc]

/-- Membership in a concatenation through one of its pieces. -/
theorem mem_concatMap_of_mem {α β : Type} (f : α → List β) (l : List α) (a : α) (b : β)
    (ha : a ∈ l) (hb : b ∈ f a) : b ∈ concatMap f l := by
  induction l with
  | nil => cases ha
  | cons x l ih =>
    rcases List.mem_cons.mp ha with h | h
    · subst h
      exact List.mem_append.mpr (Or.inl hb)
    · exact List.mem_append.mpr (Or.inr (ih h))

/-- An issue with pull-request links always gets its pull-request lookup
call. -/
theorem getPullRequest_mem_issueCalls (gh : GhClient) (repo : Repo) (commitSHA : String)
    (config : RepoConfig) (issue : Issue) (h : issue.hasPullRequestLinks = true) :
    Call.getPullRequest repo.owner repo.name issue.number ∈
      issueCalls gh repo commitSHA config issue := by
  unfold issueCalls
  rw [h]
  rcases hpr : gh.getPullRequest repo.owner repo.name issue.number with e | pr <;> simp [hpr]

/-- Claim C6: when a successful commit-status event's issue search
succeeds, the result is the multierr combination of the per-issue errors
and the concatenation of the per-issue call lists — every linked PR is
attempted independently of earlier failures — and every linked issue's
pull-request lookup call appears in the trace. -/
theorem handleStatusEvent_fanout (event : StatusEvent) (gh : GhClient)
    (config : RepoConfig) (issues : List Issue)
    (hstate : strToLower event.state = statusEventSuccessState)
    (hsearch : gh.searchIssues (searchQuery event.repo event.sha) = Except.ok issues) :
    handleStatusEvent event gh config =
      (combineErrs (concatMap (issueErrs gh event.repo event.sha config) issues),
       Call.searchIssues (searchQuery event.repo event.sha) ::
         concatMap (issueCalls gh event.repo event.sha config) issues)
    ∧ ∀ issue ∈ issues, issue.hasPullRequestLinks = true →
        Call.getPullRequest event.repo.owner event.repo.name issue.number ∈
          (handleStatusEvent event gh config).2 := by
  have hmain : handleStatusEvent event gh config =
      (combineErrs (concatMap (issueErrs gh event.repo event.sha config) issues),
       Call.searchIssues (searchQuery event.repo event.sha) ::
         concatMap (issueCalls gh event.repo event.sha config) issues) := by
    unfold handleStatusEvent
    rw [hstate]
    simp only [bne_self_eq_false, Bool.not_false, Bool.false_eq_true, if_false, if_true,
      hsearch, foldl_statusStep, List.nil_append, List.cons_append]
  refine ⟨hmain, ?_⟩
  intro issue hmem hlinks
  rw [hmain]
  exact List.mem_cons_of_mem _
    (mem_concatMap_of_mem _ issues issue _ hmem
      (getPullRequest_mem_issueCalls gh event.repo event.sha config issue hlinks))

/-- Witness for C6: with one linked issue in the search result, the
pull-request lookup call for it appears in the trace. -/
theorem handleStatusEvent_fanout_witness :
    Call.getPullRequest repoA.owner repoA.name issueA.number ∈
      (handleStatusEvent { state := "success", sha := "abc", repo := repoA }
        ghReq cfgA).2 :=
  (handleStatusEvent_fanout { state := "success", sha := "abc", repo := repoA }
      ghReq cfgA [issueA] (by decide) rfl).2 issueA (by decide) rfl

/-- Claim C7: an event whose trigger string does not match under
case-insensitive comparison — pull-request action not "labeled", review
state not "approved", status state not "success" — makes HandleEvent
return nil with no API call. -/
theorem HandleEvent_trigger_mismatch_noop (gh : GhClient) (config : RepoConfig) :
    (∀ e : PullRequestEvent, strToLower e.action ≠ labeledEvent →
        HandleEvent (Event.pullRequest e) gh config = (none, []))
    ∧ (∀ e : PullRequestReviewEvent, strToLower e.reviewState ≠ approvedReviewState →
        HandleEvent (Event.pullRequestReview e) gh config = (none, []))
    ∧ (∀ e : StatusEvent, strToLower e.state ≠ statusEventSuccessState →
        HandleEvent (Event.status e) gh config = (none, [])) := by
  refine ⟨fun e he => ?_, fun e he => ?_, fun e he => ?_⟩ <;>
    by_cases hc : config.labelsApproved = "" <;>
      simp [HandleEvent, handlePullRequestEvent, handlePullRequestReviewEvent,
        handleStatusEvent, hc, he]

/-- Witness for C7: mismatching trigger strings on all three event kinds. -/
theorem HandleEvent_trigger_mismatch_noop_witness :
    HandleEvent (Event.pullRequest
        { action := "opened", repo := repoA, pullRequest := prA, installationID := 0 })
      ghReq cfgA = (none, [])
    ∧ HandleEvent (Event.pullRequestReview
        { reviewState := "changes_requested", repo := repoA, pullRequest := prA,
          installationID := 0 })
      ghReq cfgA = (none, [])
    ∧ HandleEvent (Event.status { state := "failure", sha := "abc", repo := repoA })
      ghReq cfgA = (none, []) :=
  ⟨(HandleEvent_trigger_mismatch_noop ghReq cfgA).1 _ (by decide),
   (HandleEvent_trigger_mismatch_noop ghReq cfgA).2.1 _ (by decide),
   (HandleEvent_trigger_mismatch_noop ghReq cfgA).2.2 _ (by decide)⟩

/-- Claim C8: with an empty approved-label configuration, HandleEvent
returns nil immediately and performs no API call, for every event. -/
theorem HandleEvent_empty_label_noop (eventObject : Event) (gh : GhClient)
    (config : RepoConfig) (h : config.labelsApproved = "") :
    HandleEvent eventObject gh config = (none, []) := by
  simp [HandleEvent, h]

/-- Witness for C8 on a status event that would otherwise trigger. -/
theorem HandleEvent_empty_label_noop_witness :
    HandleEvent (Event.status { state := "success", sha := "abc", repo := repoA })
      ghReq cfgEmptyLabel = (none, []) :=
  HandleEvent_empty_label_noop _ ghReq cfgEmptyLabel rfl

/-- Claim C9: a pull request whose labels do not contain the configured
approved label makes mergePR return nil at once, with no status fetch, no
requirement lookup and no merge call. -/
theorem mergePR_missing_label_skip (issue : Issue) (pr : PullRequest)
    (owner repository : String) (gh : GhClient) (commitSHA : String) (config : RepoConfig)
    (h : containsLabel issue.labels config.labelsApproved = false) :
    mergePR issue pr owner repository gh commitSHA config = (none, []) := by
  simp [mergePR, h]

/-- Witness for C9: an issue with no labels is skipped silently. -/
theorem mergePR_missing_label_skip_witness :
    mergePR issueNoLabel prA "octo" "hello" ghReq "" cfgA = (none, []) :=
  mergePR_missing_label_skip issueNoLabel prA "octo" "hello" ghReq "" cfgA rfl

/-- Claim C10: a check run with no conclusion yet puts a false entry under
its name in the aggregated map, which blocks eligibility both with an
empty required-context set and with any required-context set naming it,
whatever the legacy statuses reported. -/
theorem aggregatedMap_nil_conclusion_blocks (statuses : List Status)
    (prChecks : List CheckRun) (c : CheckRun)
    (hc : c ∈ prChecks) (hconc : c.conclusion = none)
    (huniq : ∀ d ∈ prChecks, d.name = c.name → d = c) :
    mapLookup (aggregatedMap statuses prChecks) c.name = some false
    ∧ eligible (aggregatedMap statuses prChecks) [] = false
    ∧ ∀ R : List String, c.name ∈ R →
        eligible (aggregatedMap statuses prChecks) R = false := by
  have hlook : mapLookup (aggregatedMap statuses prChecks) c.name = some false := by
    have h := mapLookup_addChecks_unique (buildStatusMap statuses) prChecks c hc huniq
    rw [hconc] at h
    exact h
  refine ⟨hlook, ?_, ?_⟩
  · rw [eligible_nil]
    exact all_false_of_lookup_false _ _ hlook
  · intro R hmem
    have hR : R ≠ [] := by
      rintro rfl
      cases hmem
    cases he : eligible (aggregatedMap statuses prChecks) R with
    | false => rfl
    | true =>
      have h := (eligible_nonempty_iff _ R hR).mp he c.name hmem
      rw [hlook] at h
      simp at h

/-- Witness for C10: an unconcluded "ci" check run overwrites a successful
legacy "ci" status and blocks both policies. -/
theorem aggregatedMap_nil_conclusion_blocks_witness :
    mapLookup (aggregatedMap [statusCI] [checkNilCI]) checkNilCI.name = some false
    ∧ eligible (aggregatedMap [statusCI] [checkNilCI]) [] = false
    ∧ eligible (aggregatedMap [statusCI] [checkNilCI]) ["ci"] = false := by
  have h := aggregatedMap_nil_conclusion_blocks [statusCI] [checkNilCI] checkNilCI
    (by decide) rfl (by decide)
  exact ⟨h.1, h.2.1, h.2.2 ["ci"] (by decide)⟩
